import Mathlib

/-!
Verification of the mantis crawl-orchestration core against its design
specification.  Each component is shallowly embedded from the TypeScript
source: asynchronous methods become pure state-passing functions, the
JavaScript Map becomes an insertion-ordered association list, wall-clock
instants become integer (or natural) millisecond counts, and fallible
external calls (browser close, repository save) are driven by explicit
outcome oracles.
-/

namespace Mantis

namespace Jobs

/-- Raw job record produced by a strategy
(src/crawler/interfaces/base-strategy.interface.ts, interface IJob). -/
structure IJob where
  title : String
  company : String
  url : String
  description : Option String := none
  location : Option String := none
  salary : Option String := none
  tags : List String := []
  postedAt : Option String := none
  source : String
deriving Repr, DecidableEq

/-- JavaScript String.prototype.trim, on the character sequence: strip
leading and trailing whitespace. -/
def trimChars (cs : List Char) : List Char :=
  ((cs.dropWhile Char.isWhitespace).reverse.dropWhile Char.isWhitespace).reverse

/-- parseInt on the digit group captured by the regex in
JobsService.parseRelativeTime. -/
def digitsToNat (ds : List Char) : Nat :=
  ds.foldl (fun a c => a * 10 + (c.toNat - 48)) 0

/-- The regex match at jobs.service.ts line 34 on the already trimmed and
lowercased character sequence: one or more digits followed by one or more
lowercase ASCII letters, covering the whole string.  Because the two
character classes are disjoint the decomposition is the maximal digit
prefix.  Returns the captured groups (parsed value, unit characters). -/
def matchNumUnit (cs : List Char) : Option (Nat × List Char) :=
  let ds := cs.takeWhile Char.isDigit
  let us := cs.dropWhile Char.isDigit
  if ds ≠ [] ∧ us ≠ [] ∧ us.all Char.isLower then
    some (digitsToNat ds, us)
  else
    none

/-- The switch on the captured unit (jobs.service.ts lines 45-63):
subtract value multiplied by the unit's millisecond duration, or return
undefined for an unknown unit. -/
def applyUnit (now : Int) (value : Nat) (unit : List Char) : Option Int :=
  if unit = "h".data then some (now - (value : Int) * 3600000)
  else if unit = "d".data then some (now - (value : Int) * 86400000)
  else if unit = "w".data then some (now - (value : Int) * 604800000)
  else if unit = "mo".data then some (now - (value : Int) * 2592000000)
  else if unit = "y".data then some (now - (value : Int) * 31536000000)
  else none

/-- JobsService.parseRelativeTime (src/src/jobs/jobs.service.ts lines
19-66).  Instants are integer millisecond counts and `now` stands for
new Date() at the moment of the call; the result is the parsed absolute
instant, or none where the source returns undefined.  String operations
(trim, toLowerCase, the regex) are modelled on the character sequence. -/
def parseRelativeTime (now : Int) (relativeTime : Option String) : Option Int :=
  match relativeTime with
  | none => none
  | some s =>
    if trimChars s.data = [] then none
    else
      let trimmed := (trimChars s.data).map Char.toLower
      if trimmed = "just now".data ∨ trimmed = "now".data then some now
      else
        match matchNumUnit trimmed with
        | none => none
        | some (value, unit) => applyUnit now value unit

/-- The millisecond duration the switch in parseRelativeTime assigns to a
unit string (h = 1 hour, d = 24 hours, w = 7 days, mo = 30 days,
y = 365 days). -/
def unitMillis (unit : List Char) : Int :=
  if unit = "h".data then 3600000
  else if unit = "d".data then 86400000
  else if unit = "w".data then 604800000
  else if unit = "mo".data then 2592000000
  else if unit = "y".data then 31536000000
  else 0

/-- Persisted row of the jobs relation (src/src/jobs/entities/job.entity.ts);
the generated uuid is modelled as a Nat drawn from a counter. -/
structure Job where
  id : Nat
  title : String
  company : String
  url : String
  description : Option String
  location : Option String
  salary : Option String
  tags : List String
  postedAt : Option Int
  source : String
deriving Repr, DecidableEq

/-- The jobs relation (in insertion order) plus the id generator. -/
structure JobsDB where
  jobs : List Job
  nextId : Nat
deriving Repr, DecidableEq

/-- jobRepository.findOne with a url + source where clause. -/
def findByUrlSource (db : JobsDB) (url source : String) : Option Job :=
  db.jobs.find? (fun j => decide (j.url = url ∧ j.source = source))

/-- Number of persisted rows carrying a given (url, source) pair. -/
def countPair (db : JobsDB) (url source : String) : Nat :=
  db.jobs.countP (fun j => decide (j.url = url ∧ j.source = source))

/-- JobsService.create (jobs.service.ts lines 68-92): builds the entity
with postedAt routed through the relative-time normalizer and saves it. -/
def create (now : Int) (db : JobsDB) (jobData : IJob) : JobsDB × Job :=
  let job : Job := {
    id := db.nextId
    title := jobData.title
    company := jobData.company
    url := jobData.url
    description := jobData.description
    location := jobData.location
    salary := jobData.salary
    tags := jobData.tags
    postedAt := parseRelativeTime now jobData.postedAt
    source := jobData.source }
  ({ jobs := db.jobs ++ [job], nextId := db.nextId + 1 }, job)

/-- Whether `pat` occurs as a contiguous substring of `s`
(String.prototype.includes). -/
def containsSubstr (s pat : String) : Bool :=
  (List.range (s.data.length + 1)).any (fun i => pat.data.isPrefixOf (s.data.drop i))

/-- The uniqueness-violation classification of a caught save error
(jobs.service.ts lines 156-161). -/
def isUniqueViolationMsg (msg : String) : Bool :=
  containsSubstr msg "duplicate key" || containsSubstr msg "UNIQUE constraint" ||
    containsSubstr msg "unique constraint"

/-- The per-record loop of JobsService.createManyWithDuplicateHandling
(jobs.service.ts lines 136-168).  `faults` is the outcome oracle for
jobRepository.save: none means the insert succeeds, some msg means save
throws an Error carrying that message.  The first component of the result
is the database state left behind (the store is external, so inserts made
before a re-raised error persist); the second is either the
saved/skipped outcome or the re-raised error message. -/
def createManyLoop (now : Int) (faults : IJob → Option String) :
    JobsDB → List Job → Nat → List IJob → JobsDB × Except String (List Job × Nat)
  | db, saved, skipped, [] => (db, Except.ok (saved, skipped))
  | db, saved, skipped, jobData :: rest =>
    match findByUrlSource db jobData.url jobData.source with
    | some _ => createManyLoop now faults db saved (skipped + 1) rest
    | none =>
      match faults jobData with
      | none =>
        let res := create now db jobData
        createManyLoop now faults res.1 (saved ++ [res.2]) skipped rest
      | some msg =>
        if isUniqueViolationMsg msg then
          createManyLoop now faults db saved (skipped + 1) rest
        else
          (db, Except.error msg)

/-- JobsService.createManyWithDuplicateHandling (jobs.service.ts lines
130-171). -/
def createManyWithDuplicateHandling (now : Int) (faults : IJob → Option String)
    (db : JobsDB) (jobsData : List IJob) : JobsDB × Except String (List Job × Nat) :=
  createManyLoop now faults db [] 0 jobsData

end Jobs

namespace BrowserPool

/-- A pooled browser instance (IBrowserInstance).  The browser / context /
page handles are represented by a single numeric identity drawn from a
counter, enough to track which underlying resources a close call hits.
Timestamps are logical millisecond counts. -/
structure BInstance where
  id : Nat
  createdAt : Nat
  lastUsedAt : Nat
  isIdle : Bool
deriving Repr, DecidableEq

/-- State of BrowserPoolService: the keyed Map (JavaScript Maps iterate in
insertion order, and set on an existing key keeps its position, so the Map
is an in-place-updating association list), the id generator for newly
launched instances, and the sets of context / browser handles that have
been successfully closed so far. -/
structure PoolState where
  pool : List (String × BInstance)
  nextId : Nat
  contextClosed : List Nat
  browserClosed : List Nat
deriving Repr, DecidableEq

/-- Environment of the pool: the configured capacity and the outcome
oracles for context.close() and browser.close() (true = the close call
throws). -/
structure PoolEnv where
  maxPoolSize : Nat
  ctxCloseFails : Nat → Bool
  browserCloseFails : Nat → Bool

/-- Map.prototype.get. -/
def mapGet (pool : List (String × BInstance)) (key : String) : Option BInstance :=
  (pool.find? (fun p => p.1 == key)).map (fun p => p.2)

/-- Map.prototype.set: replaces in place when the key exists, appends
otherwise. -/
def mapSet (pool : List (String × BInstance)) (key : String) (v : BInstance) :
    List (String × BInstance) :=
  if pool.any (fun p => p.1 == key) then
    pool.map (fun p => if p.1 == key then (key, v) else p)
  else
    pool ++ [(key, v)]

/-- Map.prototype.delete. -/
def mapDelete (pool : List (String × BInstance)) (key : String) :
    List (String × BInstance) :=
  pool.filter (fun p => p.1 != key)

/-- BrowserPoolService.remove (browser-pool.service.ts lines 130-144).
The try block closes the context, then the browser, then deletes the Map
entry; a throw from either close lands in the catch, which only logs —
so on a close failure the later steps (including the delete) are skipped
and nothing propagates. -/
def remove (env : PoolEnv) (key : String) (st : PoolState) : PoolState :=
  match mapGet st.pool key with
  | none => st
  | some inst =>
    if env.ctxCloseFails inst.id then st
    else
      let st1 : PoolState := { st with contextClosed := inst.id :: st.contextClosed }
      if env.browserCloseFails inst.id then st1
      else
        let st2 : PoolState := { st1 with browserClosed := inst.id :: st1.browserClosed }
        { st2 with pool := mapDelete st2.pool key }

/-- The fold inside BrowserPoolService.cleanupOldest (lines 154-162):
walk the Map in iteration order keeping the idle entry with the strictly
smallest lastUsedAt, starting from oldestTime = Date.now(). -/
def selectOldestIdle (pool : List (String × BInstance)) (now : Nat) :
    Option String × Nat :=
  pool.foldl
    (fun acc p =>
      if p.2.isIdle ∧ p.2.lastUsedAt < acc.2 then (some p.1, p.2.lastUsedAt) else acc)
    (none, now)

/-- BrowserPoolService.cleanupOldest (lines 149-168).  The source guards
the eviction with the truthiness test `if (oldestKey)`, which is false
both for null and for the empty string — so an oldest idle session keyed
by the empty string is selected but never removed. -/
def cleanupOldest (env : PoolEnv) (now : Nat) (st : PoolState) : PoolState :=
  if st.pool.length = 0 then st
  else
    match (selectOldestIdle st.pool now).1 with
    | some oldestKey => if oldestKey = "" then st else remove env oldestKey st
    | none => st

/-- The create-new-instance path of BrowserPoolService.acquire (lines
48-77): run cleanupOldest when the pool is at or above capacity, then
launch a new instance (fresh id, in use) and set it under the key. -/
def acquireFresh (env : PoolEnv) (key : String) (now : Nat) (st : PoolState) :
    PoolState × BInstance :=
  let st1 := if env.maxPoolSize ≤ st.pool.length then cleanupOldest env now st else st
  let inst : BInstance := { id := st1.nextId, createdAt := now, lastUsedAt := now, isIdle := false }
  ({ st1 with pool := mapSet st1.pool key inst, nextId := st1.nextId + 1 }, inst)

/-- BrowserPoolService.acquire (lines 35-78).  Reuse an idle instance for
the key when present; otherwise take the create path.  Returns the new
state and the instance handed out. -/
def acquire (env : PoolEnv) (key : String) (now : Nat) (st : PoolState) :
    PoolState × BInstance :=
  match mapGet st.pool key with
  | some existing =>
    if existing.isIdle then
      let inst : BInstance := { existing with isIdle := false, lastUsedAt := now }
      ({ st with pool := mapSet st.pool key inst }, inst)
    else
      acquireFresh env key now st
  | none => acquireFresh env key now st

/-- BrowserPoolService.release (lines 83-99): no-op when the key is
absent, otherwise mark idle and refresh lastUsedAt.  (Closing the
context's secondary pages touches no pool state.) -/
def release (key : String) (now : Nat) (st : PoolState) : PoolState :=
  match mapGet st.pool key with
  | none => st
  | some inst =>
    { st with pool := mapSet st.pool key { inst with isIdle := true, lastUsedAt := now } }

/-- BrowserPoolService.cleanupIdle (lines 173-190): collect the keys of
idle instances unused longer than the timeout, then remove each. -/
def cleanupIdle (env : PoolEnv) (idleTimeout : Nat) (now : Nat) (st : PoolState) :
    PoolState :=
  let keysToRemove :=
    (st.pool.filter (fun p => p.2.isIdle && decide (idleTimeout < now - p.2.lastUsedAt))).map
      (fun p => p.1)
  keysToRemove.foldl (fun s k => remove env k s) st

/-- BrowserPoolService.clear (lines 235-241). -/
def clear (env : PoolEnv) (st : PoolState) : PoolState :=
  (st.pool.map (fun p => p.1)).foldl (fun s k => remove env k s) st

/-- One public pool operation, used to quantify over arbitrary sequences
of pool activity. -/
inductive PoolOp where
  | acquireOp (key : String) (now : Nat)
  | releaseOp (key : String) (now : Nat)
  | removeOp (key : String)
  | cleanupOldestOp (now : Nat)
  | cleanupIdleOp (idleTimeout : Nat) (now : Nat)
  | clearOp

/-- Interpretation of one pool operation on the state. -/
def step (env : PoolEnv) (op : PoolOp) (st : PoolState) : PoolState :=
  match op with
  | PoolOp.acquireOp key now => (acquire env key now st).1
  | PoolOp.releaseOp key now => release key now st
  | PoolOp.removeOp key => remove env key st
  | PoolOp.cleanupOldestOp now => cleanupOldest env now st
  | PoolOp.cleanupIdleOp idleTimeout now => cleanupIdle env idleTimeout now st
  | PoolOp.clearOp => clear env st

/-- Run a sequence of pool operations. -/
def run (env : PoolEnv) (ops : List PoolOp) (st : PoolState) : PoolState :=
  ops.foldl (fun s op => step env op s) st

/-- The instance ids currently reachable from the pool Map. -/
def poolIds (st : PoolState) : List Nat :=
  st.pool.map (fun p => p.2.id)

end BrowserPool

namespace Scheduler

/-- Observable state of CrawlerSchedulerService
(src/src/crawler/crawler-scheduler.service.ts, and the streaming variant
in the scheduler source carrying the onPageCrawled storage callback):
the isRunning guard, the cumulative saved / skipped counts produced by
the storage callbacks, the number of strategy crawls started, and the
number of skipped-trigger warning log lines. -/
structure SchedState where
  isRunning : Bool
  totalSaved : Nat
  totalSkipped : Nat
  strategyRuns : Nat
  skipLogs : Nat
deriving Repr, DecidableEq

/-- CrawlerSchedulerService.handleCron.  `effects` gives, per configured
strategy, the (saved, skipped) totals its storage callback accumulates
during that strategy's crawl; per-strategy crawl failures are caught
inside the loop and do not stop it.  `abortAfter = some k` models the
round body throwing to the outer catch after k strategies (the catch
swallows the error and the finally block clears the flag).  A trigger
that finds isRunning set only logs a warning and returns. -/
def handleCron (effects : List (Nat × Nat)) (abortAfter : Option Nat)
    (st : SchedState) : SchedState :=
  if st.isRunning then
    { st with skipLogs := st.skipLogs + 1 }
  else
    let executed := match abortAfter with
      | none => effects
      | some k => effects.take k
    let st1 := executed.foldl
      (fun s e =>
        { s with
          totalSaved := s.totalSaved + e.1
          totalSkipped := s.totalSkipped + e.2
          strategyRuns := s.strategyRuns + 1 })
      { st with isRunning := true }
    { st1 with isRunning := false }

/-- CrawlerSchedulerService.handleManually re-enters handleCron. -/
def handleManually (effects : List (Nat × Nat)) (abortAfter : Option Nat)
    (st : SchedState) : SchedState :=
  handleCron effects abortAfter st

end Scheduler

namespace Himalayas

/-- Environment of the pagination loop in HimalayasStrategy.crawl:
`pages k` is what extractJobsFromCurrentPage returns on the k-th visited
page (0-based), and `advanceOk k` is the boolean outcome of
pageToLoadMore when leaving the k-th page. -/
structure PageEnv where
  pages : Nat → List Jobs.IJob
  advanceOk : Nat → Bool

/-- The while loop of HimalayasStrategy.crawl (himalayas-strategy.ts
lines 66-128), instrumented with the number of extraction cycles and of
onPageCrawled invocations.  The source loop is unbounded, so it is
embedded with explicit fuel (one unit per iteration); the termination
theorems below show that maxResults units always suffice, so the fuel is
an artifact of the embedding, not a behaviour change.  A callback
failure is logged and the loop continues, so it does not affect these
counters. -/
def crawlLoopFuel (env : PageEnv) (hasCallback : Bool)
    (maxResults fuel pageIdx totalCrawled extractions callbackCalls : Nat) :
    Option (Nat × Nat × Nat) :=
  if maxResults ≤ totalCrawled then some (totalCrawled, extractions, callbackCalls)
  else
    match fuel with
    | 0 => none
    | fuel' + 1 =>
      let pageJobs := env.pages pageIdx
      if pageJobs.length = 0 then
        some (totalCrawled, extractions + 1, callbackCalls)
      else
        let cb := if hasCallback then callbackCalls + 1 else callbackCalls
        let total := totalCrawled + pageJobs.length
        if maxResults ≤ total then some (total, extractions + 1, cb)
        else if env.advanceOk pageIdx then
          crawlLoopFuel env hasCallback maxResults fuel' (pageIdx + 1) total
            (extractions + 1) cb
        else
          some (total, extractions + 1, cb)

/-- HimalayasStrategy.crawl on its success path: runs the pagination
loop and then (line 132) returns the empty array unconditionally,
whether or not an onPageCrawled callback was configured.  The result
carries the returned job list together with the final totalCrawled,
extraction-cycle count and callback-invocation count. -/
def crawl (env : PageEnv) (hasCallback : Bool) (maxResults fuel : Nat) :
    Option (List Jobs.IJob × Nat × Nat × Nat) :=
  (crawlLoopFuel env hasCallback maxResults fuel 0 0 0 0).map
    (fun r => ([], r.1, r.2.1, r.2.2))

/-- Modelled from the spec: the Pagination Driver return rule of §4.3
for a run with no ingestion callback — accumulate every extracted batch
and return the full list capped at maxResults, stopping on an empty
extraction, on reaching maxResults, or on a failed advance.  Stated
separately from `crawl` so the two return rules can be compared. -/
def specDriverLoopFuel (env : PageEnv) (maxResults fuel pageIdx : Nat)
    (accumulated : List Jobs.IJob) : Option (List Jobs.IJob) :=
  if maxResults ≤ accumulated.length then some (accumulated.take maxResults)
  else
    match fuel with
    | 0 => none
    | fuel' + 1 =>
      let batch := env.pages pageIdx
      if batch.length = 0 then some (accumulated.take maxResults)
      else
        let acc := accumulated ++ batch
        if maxResults ≤ acc.length then some (acc.take maxResults)
        else if env.advanceOk pageIdx then
          specDriverLoopFuel env maxResults fuel' (pageIdx + 1) acc
        else
          some (acc.take maxResults)

/-- Modelled from the spec: the list a no-callback Pagination Driver run
returns according to §4.3. -/
def specDriverReturn (env : PageEnv) (maxResults fuel : Nat) :
    Option (List Jobs.IJob) :=
  specDriverLoopFuel env maxResults fuel 0 []

end Himalayas

namespace Fixtures

/-- A concrete extracted job record used for concrete runs. -/
def sampleJob : Jobs.IJob :=
  { title := "Engineer", company := "Acme", url := "https://example.com/a",
    source := "himalayas" }

/-- A second record with a different (url, source) pair. -/
def otherJob : Jobs.IJob :=
  { title := "Designer", company := "Beta", url := "https://example.com/b",
    source := "himalayas" }

/-- A record sharing otherJob's (url, source) pair but differing elsewhere. -/
def otherJobVariant : Jobs.IJob :=
  { title := "Senior Designer", company := "BetaCorp", url := "https://example.com/b",
    salary := some "100k", source := "himalayas" }

/-- The empty jobs store. -/
def emptyDB : Jobs.JobsDB := { jobs := [], nextId := 0 }

/-- A save oracle that always succeeds. -/
def noFaults : Jobs.IJob → Option String := fun _ => none

/-- A save oracle under which saving otherJob throws a connection error
(not a uniqueness violation) while everything else succeeds. -/
def connFault : Jobs.IJob → Option String :=
  fun j => if j = otherJob then some "connection reset" else none

/-- A crawl environment where every page yields a single record and
advancing always succeeds. -/
def onePageEnv : Himalayas.PageEnv :=
  { pages := fun _ => [sampleJob], advanceOk := fun _ => true }

/-- A crawl environment where every page yields ten records. -/
def tenPerPageEnv : Himalayas.PageEnv :=
  { pages := fun _ => List.replicate 10 sampleJob, advanceOk := fun _ => true }

/-- A crawl environment whose third page (index 2) yields five records
while earlier pages yield ten. -/
def shortThirdPageEnv : Himalayas.PageEnv :=
  { pages := fun k => if k < 2 then List.replicate 10 sampleJob else List.replicate 5 sampleJob,
    advanceOk := fun _ => true }

/-- Pool environment where no close call ever fails, capacity 1. -/
def noFailEnv : BrowserPool.PoolEnv :=
  { maxPoolSize := 1, ctxCloseFails := fun _ => false, browserCloseFails := fun _ => false }

/-- Pool environment where context.close always throws, capacity 5. -/
def ctxFailEnv : BrowserPool.PoolEnv :=
  { maxPoolSize := 5, ctxCloseFails := fun _ => true, browserCloseFails := fun _ => false }

/-- A pool at size 1 whose only session (key a, id 0) is in use. -/
def busyPool : BrowserPool.PoolState :=
  { pool := [("a", { id := 0, createdAt := 0, lastUsedAt := 0, isIdle := false })],
    nextId := 1, contextClosed := [], browserClosed := [] }

/-- A pool at size 1 whose only session (key a, id 0) is idle. -/
def idlePool : BrowserPool.PoolState :=
  { pool := [("a", { id := 0, createdAt := 0, lastUsedAt := 0, isIdle := true })],
    nextId := 1, contextClosed := [], browserClosed := [] }

end Fixtures

/-! ### Pagination Driver: step lemmas for the crawl loop -/

theorem crawlLoopFuel_reached {e : Himalayas.PageEnv} {hc : Bool} {m f p t x c : Nat}
    (h : m ≤ t) :
    Himalayas.crawlLoopFuel e hc m f p t x c = some (t, x, c) := by
  unfold Himalayas.crawlLoopFuel
  rw [if_pos h]

theorem crawlLoopFuel_emptyL {e : Himalayas.PageEnv} {hc : Bool} {m f p t x c : Nat}
    (h1 : ¬ m ≤ t) (h2 : (e.pages p).length = 0) :
    Himalayas.crawlLoopFuel e hc m (f + 1) p t x c = some (t, x + 1, c) := by
  unfold Himalayas.crawlLoopFuel
  simp [h1, h2]

theorem crawlLoopFuel_lastL {e : Himalayas.PageEnv} {hc : Bool} {m f p t x c n : Nat}
    (h1 : ¬ m ≤ t) (h2 : (e.pages p).length = n) (h3 : n ≠ 0) (h4 : m ≤ t + n) :
    Himalayas.crawlLoopFuel e hc m (f + 1) p t x c =
      some (t + n, x + 1, if hc then c + 1 else c) := by
  unfold Himalayas.crawlLoopFuel
  simp [h1, h2, h3, h4]

theorem crawlLoopFuel_advanceL {e : Himalayas.PageEnv} {hc : Bool} {m f p t x c n : Nat}
    (h1 : ¬ m ≤ t) (h2 : (e.pages p).length = n) (h3 : n ≠ 0) (h4 : ¬ m ≤ t + n)
    (h5 : e.advanceOk p = true) :
    Himalayas.crawlLoopFuel e hc m (f + 1) p t x c =
      Himalayas.crawlLoopFuel e hc m f (p + 1) (t + n) (x + 1) (if hc then c + 1 else c) := by
  conv_lhs => rw [Himalayas.crawlLoopFuel.eq_def]
  simp [h1, h2, h3, h4, h5]

theorem crawlLoopFuel_noAdvanceL {e : Himalayas.PageEnv} {hc : Bool} {m f p t x c n : Nat}
    (h1 : ¬ m ≤ t) (h2 : (e.pages p).length = n) (h3 : n ≠ 0) (h4 : ¬ m ≤ t + n)
    (h5 : e.advanceOk p = false) :
    Himalayas.crawlLoopFuel e hc m (f + 1) p t x c =
      some (t + n, x + 1, if hc then c + 1 else c) := by
  unfold Himalayas.crawlLoopFuel
  simp [h1, h2, h3, h4, h5]

/-- Fuel sufficiency: starting the loop with `m ≤ t + f` units of fuel
never exhausts it, because every continuing iteration grows t by at
least one. -/
theorem crawlLoopFuel_isSome (e : Himalayas.PageEnv) (hc : Bool) (m : Nat) :
    ∀ f p t x c, m ≤ t + f →
      (Himalayas.crawlLoopFuel e hc m f p t x c).isSome = true := by
  intro f
  induction f with
  | zero =>
    intro p t x c h
    rw [crawlLoopFuel_reached (by omega)]
    rfl
  | succ f ih =>
    intro p t x c h
    by_cases h1 : m ≤ t
    · rw [crawlLoopFuel_reached h1]; rfl
    · by_cases h2 : (e.pages p).length = 0
      · rw [crawlLoopFuel_emptyL h1 h2]; rfl
      · by_cases h4 : m ≤ t + (e.pages p).length
        · rw [crawlLoopFuel_lastL h1 rfl h2 h4]; rfl
        · cases h5 : e.advanceOk p with
          | false => rw [crawlLoopFuel_noAdvanceL h1 rfl h2 h4 h5]; rfl
          | true =>
            rw [crawlLoopFuel_advanceL h1 rfl h2 h4 h5]
            exact ih (p + 1) (t + (e.pages p).length) (x + 1) _ (by omega)

/-- Fuel irrelevance: any two sufficient fuel amounts give the same
outcome, so the fuel is an embedding artifact only. -/
theorem crawlLoopFuel_irrel (e : Himalayas.PageEnv) (hc : Bool) (m : Nat) :
    ∀ f g p t x c, m ≤ t + f → m ≤ t + g →
      Himalayas.crawlLoopFuel e hc m f p t x c =
        Himalayas.crawlLoopFuel e hc m g p t x c := by
  intro f
  induction f with
  | zero =>
    intro g p t x c hf hg
    have ht : m ≤ t := by omega
    rw [crawlLoopFuel_reached ht, crawlLoopFuel_reached ht]
  | succ f ih =>
    intro g p t x c hf hg
    by_cases ht : m ≤ t
    · rw [crawlLoopFuel_reached ht, crawlLoopFuel_reached ht]
    · cases g with
      | zero => exact absurd (by omega : m ≤ t) ht
      | succ g =>
        by_cases h2 : (e.pages p).length = 0
        · rw [crawlLoopFuel_emptyL ht h2, crawlLoopFuel_emptyL ht h2]
        · by_cases h4 : m ≤ t + (e.pages p).length
          · rw [crawlLoopFuel_lastL ht rfl h2 h4, crawlLoopFuel_lastL ht rfl h2 h4]
          · cases h5 : e.advanceOk p with
            | false =>
              rw [crawlLoopFuel_noAdvanceL ht rfl h2 h4 h5,
                crawlLoopFuel_noAdvanceL ht rfl h2 h4 h5]
            | true =>
              rw [crawlLoopFuel_advanceL ht rfl h2 h4 h5,
                crawlLoopFuel_advanceL ht rfl h2 h4 h5]
              exact ih g (p + 1) (t + (e.pages p).length) (x + 1) _ (by omega) (by omega)

/-! ### Claim theorems: Pagination Driver -/

/-- C5: the pagination loop of HimalayasStrategy.crawl terminates on
every input: maxResults fuel units always complete (each continuing
iteration extracts at least one record, and empty extraction, reaching
maxResults, or a failed advance all exit), and giving the loop any
additional fuel does not change its outcome — no execution path
iterates forever. -/
theorem himalayas_loop_terminates (e : Himalayas.PageEnv) (hc : Bool) (m k : Nat) :
    (Himalayas.crawlLoopFuel e hc m m 0 0 0 0).isSome = true ∧
    Himalayas.crawlLoopFuel e hc m (m + k) 0 0 0 0 =
      Himalayas.crawlLoopFuel e hc m m 0 0 0 0 := by
  constructor
  · exact crawlLoopFuel_isSome e hc m m 0 0 0 0 (by omega)
  · exact crawlLoopFuel_irrel e hc m (m + k) m 0 0 0 0 (by omega) (by omega)

/-- C3 counterexample: a crawl with no ingestion callback against a site
whose first page holds one record returns the empty list, while the
spec's return rule (accumulate and cap at maxResults) yields that
record — so the no-callback half of the claim fails on the code. -/
theorem himalayas_crawl_counterexample :
    Himalayas.crawl Fixtures.onePageEnv false 1 1 = some ([], 1, 1, 0) ∧
    Himalayas.specDriverReturn Fixtures.onePageEnv 1 1 = some [Fixtures.sampleJob] ∧
    ([] : List Jobs.IJob) ≠ [Fixtures.sampleJob] :=
  ⟨by decide, by decide, by decide⟩

/-- C3 amended: HimalayasStrategy.crawl returns the empty result list on
every successful run, whether or not an onPageCrawled callback is
configured; extracted records only ever leave through the callback, and
with no callback the callback-invocation count stays zero. -/
theorem himalayas_crawl_returns_empty (e : Himalayas.PageEnv) (hc : Bool) (m f : Nat)
    (r : List Jobs.IJob × Nat × Nat × Nat)
    (h : Himalayas.crawl e hc m f = some r) : r.1 = [] := by
  unfold Himalayas.crawl at h
  cases hq : Himalayas.crawlLoopFuel e hc m f 0 0 0 0 with
  | none => rw [hq] at h; simp at h
  | some v =>
    rw [hq] at h
    have h2 : (([], v.1, v.2.1, v.2.2) : List Jobs.IJob × Nat × Nat × Nat) = r :=
      Option.some.inj h
    rw [← h2]

/-- Witness for the amended C3 theorem at a concrete no-callback run. -/
theorem himalayas_crawl_returns_empty_witness :
    (([], 1, 1, 0) : List Jobs.IJob × Nat × Nat × Nat).1 = [] :=
  himalayas_crawl_returns_empty Fixtures.onePageEnv false 1 1 ([], 1, 1, 0) (by decide)

/-- C4: with maxResults 25, pages 0 and 1 yielding ten records each and
page 2 yielding ten or five, a callback-configured crawl performs
exactly three extraction cycles and three callback invocations and
finishes with totalCrawled 30 or 25; no fourth extraction happens even
though later pages are unconstrained. -/
theorem himalayas_pagination_counts (e : Himalayas.PageEnv) (n : Nat)
    (a : (e.pages 0).length = 10) (b : (e.pages 1).length = 10)
    (c : (e.pages 2).length = n) (d : n = 10 ∨ n = 5)
    (u : e.advanceOk 0 = true) (v : e.advanceOk 1 = true) :
    Himalayas.crawl e true 25 25 = some ([], 20 + n, 3, 3) := by
  have e1 := @crawlLoopFuel_advanceL e true 25 24 0 0 0 0 10 (by decide) a
    (by decide) (by decide) u
  have e2 := @crawlLoopFuel_advanceL e true 25 23 1 10 1 1 10 (by decide) b
    (by decide) (by decide) v
  rcases d with rfl | rfl
  · have e3 := @crawlLoopFuel_lastL e true 25 22 2 20 2 2 10 (by decide) c
      (by decide) (by decide)
    simp only [Himalayas.crawl]
    norm_num at e1 e2 e3
    rw [e1, e2, e3]
    rfl
  · have e3 := @crawlLoopFuel_lastL e true 25 22 2 20 2 2 5 (by decide) c
      (by decide) (by decide)
    simp only [Himalayas.crawl]
    norm_num at e1 e2 e3
    rw [e1, e2, e3]
    rfl

/-- Witness for C4: the concrete site with a five-record third page. -/
theorem himalayas_pagination_counts_witness :
    Himalayas.crawl Fixtures.shortThirdPageEnv true 25 25 = some ([], 25, 3, 3) :=
  himalayas_pagination_counts Fixtures.shortThirdPageEnv 5 (by decide) (by decide)
    (by decide) (Or.inr rfl) rfl rfl

/-! ### Claim theorems: Scheduled Runner -/

/-- C7: a Scheduled Runner trigger (cron or manual, which re-enters the
same routine) that finds the exclusivity flag set is a complete no-op —
it only logs a warning, leaving saved/skipped counters, strategy-run
count and the flag untouched — and a trigger that finds the flag clear
leaves it clear again on every exit path, whatever the round's
per-strategy effects are and wherever the round body aborts. -/
theorem scheduler_exclusive_flag (l : List (Nat × Nat)) (a : Option Nat)
    (st : Scheduler.SchedState) :
    Scheduler.handleCron l a { st with isRunning := true } =
      { st with isRunning := true, skipLogs := st.skipLogs + 1 } ∧
    (Scheduler.handleCron l a { st with isRunning := false }).isRunning = false ∧
    Scheduler.handleManually l a st = Scheduler.handleCron l a st :=
  ⟨rfl, rfl, rfl⟩

/-! ### Ingestion Sink helper lemmas -/

theorem findByUrlSource_none_countPair {db : Jobs.JobsDB} {u s : String}
    (h : Jobs.findByUrlSource db u s = none) : Jobs.countPair db u s = 0 :=
  List.countP_eq_zero.mpr (List.find?_eq_none.mp h)

/-- The row create inserts carries the record's url and source. -/
theorem create_snd_url {w : Int} {db : Jobs.JobsDB} {j : Jobs.IJob} :
    (Jobs.create w db j).2.url = j.url ∧ (Jobs.create w db j).2.source = j.source :=
  ⟨rfl, rfl⟩

/-- The store after create is the old rows with the new row appended. -/
theorem create_fst_jobs {w : Int} {db : Jobs.JobsDB} {j : Jobs.IJob} :
    (Jobs.create w db j).1.jobs = db.jobs ++ [(Jobs.create w db j).2] :=
  rfl

/-- Looking up the pair just inserted by create finds the new row when
the store held no row for that pair before. -/
theorem findByUrlSource_create_self {w : Int} {db : Jobs.JobsDB} {j : Jobs.IJob}
    {u s : String} (hu : j.url = u) (hs : j.source = s)
    (h : Jobs.findByUrlSource db u s = none) :
    Jobs.findByUrlSource (Jobs.create w db j).1 u s = some (Jobs.create w db j).2 := by
  unfold Jobs.findByUrlSource at h ⊢
  rw [create_fst_jobs, List.find?_append, h, Option.none_or]
  have h1 : (Jobs.create w db j).2.url = u := create_snd_url.1.trans hu
  have h2 : (Jobs.create w db j).2.source = s := create_snd_url.2.trans hs
  simp [List.find?_cons, h1, h2]

/-- Looking up a different pair after create sees exactly what the
previous store held for it. -/
theorem findByUrlSource_create_other {w : Int} {db : Jobs.JobsDB} {j : Jobs.IJob}
    {u s : String} (h : ¬ (u = j.url ∧ s = j.source)) :
    Jobs.findByUrlSource (Jobs.create w db j).1 u s = Jobs.findByUrlSource db u s := by
  unfold Jobs.findByUrlSource
  rw [create_fst_jobs, List.find?_append]
  have h1 : (Jobs.create w db j).2.url = j.url := create_snd_url.1
  have h2 : (Jobs.create w db j).2.source = j.source := create_snd_url.2
  by_cases hu : u = j.url
  · have hs : j.source ≠ s := fun e => h ⟨hu, e.symm⟩
    simp [List.find?_cons, h1, h2, hs]
  · have hu2 : j.url ≠ u := fun e => hu e.symm
    simp [List.find?_cons, h1, h2, hu2]

/-- create adds exactly one row for its own pair. -/
theorem countPair_create_self {w : Int} {db : Jobs.JobsDB} {j : Jobs.IJob}
    {u s : String} (hu : j.url = u) (hs : j.source = s) :
    Jobs.countPair (Jobs.create w db j).1 u s = Jobs.countPair db u s + 1 := by
  unfold Jobs.countPair
  rw [create_fst_jobs, List.countP_append]
  have h1 : (Jobs.create w db j).2.url = u := create_snd_url.1.trans hu
  have h2 : (Jobs.create w db j).2.source = s := create_snd_url.2.trans hs
  simp [List.countP_cons, h1, h2]

/-- create adds no row for any other pair. -/
theorem countPair_create_other {w : Int} {db : Jobs.JobsDB} {j : Jobs.IJob}
    {u s : String} (h : ¬ (u = j.url ∧ s = j.source)) :
    Jobs.countPair (Jobs.create w db j).1 u s = Jobs.countPair db u s := by
  unfold Jobs.countPair
  rw [create_fst_jobs, List.countP_append]
  have h1 : (Jobs.create w db j).2.url = j.url := create_snd_url.1
  have h2 : (Jobs.create w db j).2.source = j.source := create_snd_url.2
  by_cases hu : u = j.url
  · have hs : j.source ≠ s := fun e => h ⟨hu, e.symm⟩
    simp [List.countP_cons, h1, h2, hs]
  · have hu2 : j.url ≠ u := fun e => hu e.symm
    simp [List.countP_cons, h1, h2, hu2]

/-! ### Claim theorems: Ingestion Sink -/

/-- C2: persistence is idempotent under duplicate input keyed solely by
(url, source): persisting a fresh record saves it with no skip, and then
persisting any record carrying the same (url, source) pair — all other
fields arbitrary — skips it, changes nothing in the store, and leaves
exactly one saved row for that pair. -/
theorem persistBatch_idempotent (w : Int) (q : Jobs.IJob → Option String)
    (db : Jobs.JobsDB) (r r' : Jobs.IJob)
    (h1 : r'.url = r.url) (h2 : r'.source = r.source)
    (h3 : Jobs.findByUrlSource db r.url r.source = none)
    (h4 : q r = none) :
    Jobs.createManyWithDuplicateHandling w q db [r] =
      ((Jobs.create w db r).1, Except.ok ([(Jobs.create w db r).2], 0)) ∧
    Jobs.createManyWithDuplicateHandling w q (Jobs.create w db r).1 [r'] =
      ((Jobs.create w db r).1, Except.ok ([], 1)) ∧
    Jobs.countPair (Jobs.create w db r).1 r.url r.source = 1 := by
  refine ⟨?_, ?_, ?_⟩
  · unfold Jobs.createManyWithDuplicateHandling
    simp [Jobs.createManyLoop, h3, h4]
  · unfold Jobs.createManyWithDuplicateHandling
    simp [Jobs.createManyLoop, h1, h2, findByUrlSource_create_self rfl rfl h3]
  · rw [countPair_create_self rfl rfl, findByUrlSource_none_countPair h3]

/-- Witness for C2: persisting a record and then a differently-shaped
record with the same (url, source) pair skips the second. -/
theorem persistBatch_idempotent_witness :
    Jobs.createManyWithDuplicateHandling 0 Fixtures.noFaults
        (Jobs.create 0 Fixtures.emptyDB Fixtures.otherJob).1 [Fixtures.otherJobVariant] =
      ((Jobs.create 0 Fixtures.emptyDB Fixtures.otherJob).1, Except.ok ([], 1)) ∧
    Jobs.countPair (Jobs.create 0 Fixtures.emptyDB Fixtures.otherJob).1
      Fixtures.otherJob.url Fixtures.otherJob.source = 1 := by
  have h := persistBatch_idempotent 0 Fixtures.noFaults Fixtures.emptyDB
    Fixtures.otherJob Fixtures.otherJobVariant rfl rfl rfl rfl
  exact ⟨h.2.1, h.2.2⟩

/-- C10: persistBatch is not atomic: when a record in the middle of the
batch fails to save with a message that is not a uniqueness violation,
the error is re-raised immediately, the earlier record's row stays
persisted, no row is written for the failing record, the tail of the
batch is never examined (the outcome is identical for any tail), and
the caller receives the error instead of saved/skipped counts. -/
theorem persistBatch_not_atomic (w : Int) (q : Jobs.IJob → Option String)
    (db : Jobs.JobsDB) (a b : Jobs.IJob) (m : String)
    (h1 : Jobs.findByUrlSource db a.url a.source = none)
    (h2 : q a = none)
    (h3 : Jobs.findByUrlSource db b.url b.source = none)
    (h4 : ¬ (b.url = a.url ∧ b.source = a.source))
    (h5 : q b = some m)
    (h6 : Jobs.isUniqueViolationMsg m = false) :
    ∀ u v : List Jobs.IJob,
      Jobs.createManyWithDuplicateHandling w q db (a :: b :: u) =
        ((Jobs.create w db a).1, Except.error m) ∧
      Jobs.createManyWithDuplicateHandling w q db (a :: b :: u) =
        Jobs.createManyWithDuplicateHandling w q db (a :: b :: v) ∧
      Jobs.countPair (Jobs.create w db a).1 a.url a.source =
        Jobs.countPair db a.url a.source + 1 ∧
      Jobs.countPair (Jobs.create w db a).1 b.url b.source =
        Jobs.countPair db b.url b.source := by
  have key : ∀ u : List Jobs.IJob,
      Jobs.createManyWithDuplicateHandling w q db (a :: b :: u) =
        ((Jobs.create w db a).1, Except.error m) := by
    intro u
    unfold Jobs.createManyWithDuplicateHandling
    simp [Jobs.createManyLoop, h1, h2, findByUrlSource_create_other h4, h3, h5, h6]
  intro u v
  refine ⟨key u, (key u).trans (key v).symm, countPair_create_self rfl rfl, ?_⟩
  exact countPair_create_other h4

/-! ### Relative-time normalizer helper lemmas -/

theorem takeWhile_append_all {α} (p : α → Bool) (l₁ l₂ : List α)
    (h : ∀ a ∈ l₁, p a = true) :
    (l₁ ++ l₂).takeWhile p = l₁ ++ l₂.takeWhile p := by
  induction l₁ with
  | nil => simp
  | cons a l ih =>
    simp only [List.cons_append, List.takeWhile_cons, h a (List.mem_cons_self a l), if_pos]
    rw [ih (fun b hb => h b (List.mem_cons_of_mem a hb))]

theorem dropWhile_append_all {α} (p : α → Bool) (l₁ l₂ : List α)
    (h : ∀ a ∈ l₁, p a = true) :
    (l₁ ++ l₂).dropWhile p = l₂.dropWhile p := by
  induction l₁ with
  | nil => simp
  | cons a l ih =>
    simp only [List.cons_append, List.dropWhile_cons, h a (List.mem_cons_self a l), if_pos]
    exact ih (fun b hb => h b (List.mem_cons_of_mem a hb))

/-- On a digits-then-unit string the regex captures exactly the two
groups. -/
theorem matchNumUnit_digits_unit (ds us : List Char) (h1 : ds ≠ [])
    (h2 : ∀ a ∈ ds, a.isDigit = true)
    (h3 : us.takeWhile Char.isDigit = []) (h4 : us.dropWhile Char.isDigit = us)
    (h5 : us ≠ []) (h6 : us.all Char.isLower = true) :
    Jobs.matchNumUnit (ds ++ us) = some (Jobs.digitsToNat ds, us) := by
  unfold Jobs.matchNumUnit
  rw [takeWhile_append_all _ _ _ h2, dropWhile_append_all _ _ _ h2, h3, h4, List.append_nil]
  rw [if_pos ⟨h1, h5, h6⟩]

/-- Inversion of a successful regex match. -/
theorem matchNumUnit_someE {cs : List Char} {v : Nat} {us : List Char}
    (h : Jobs.matchNumUnit cs = some (v, us)) :
    cs.takeWhile Char.isDigit ≠ [] ∧ us = cs.dropWhile Char.isDigit ∧ us ≠ [] ∧
      cs = cs.takeWhile Char.isDigit ++ us ∧
      (∀ a ∈ cs.takeWhile Char.isDigit, a.isDigit = true) := by
  unfold Jobs.matchNumUnit at h
  by_cases hc : cs.takeWhile Char.isDigit ≠ [] ∧ cs.dropWhile Char.isDigit ≠ [] ∧
      (cs.dropWhile Char.isDigit).all Char.isLower
  · rw [if_pos hc] at h
    have hp : (Jobs.digitsToNat (cs.takeWhile Char.isDigit), cs.dropWhile Char.isDigit) = (v, us) :=
      Option.some.inj h
    have hus2 : us = cs.dropWhile Char.isDigit := congrArg Prod.snd hp.symm
    refine ⟨hc.1, hus2, ?_, ?_, ?_⟩
    · rw [hus2]; exact hc.2.1
    · rw [hus2, List.takeWhile_append_dropWhile]
    · intro a ha; exact List.mem_takeWhile_imp ha
  · rw [if_neg hc] at h
    exact absurd h (by simp)

/-- A string whose first character is a digit is neither of the two
special phrases. -/
theorem digits_append_ne_special (ds us : List Char) (h1 : ds ≠ [])
    (h2 : ∀ a ∈ ds, a.isDigit = true) :
    ¬ (ds ++ us = "just now".data ∨ ds ++ us = "now".data) := by
  cases ds with
  | nil => exact absurd rfl h1
  | cons c t =>
    have hc : c.isDigit = true := h2 c (List.mem_cons_self c t)
    intro hor
    rcases hor with he | he
    · rw [show "just now".data = 'j' :: "ust now".data from rfl, List.cons_append] at he
      have hcj : c = 'j' := ((List.cons.injEq _ _ _ _).mp he).1
      rw [hcj] at hc
      exact absurd hc (by decide)
    · rw [show "now".data = 'n' :: "ow".data from rfl, List.cons_append] at he
      have hcn : c = 'n' := ((List.cons.injEq _ _ _ _).mp he).1
      rw [hcn] at hc
      exact absurd hc (by decide)

/-- The unit switch on each of the five recognized units. -/
theorem applyUnit_units (z : Int) (v : Nat) (us : List Char)
    (h : us = "h".data ∨ us = "d".data ∨ us = "w".data ∨ us = "mo".data ∨ us = "y".data) :
    Jobs.applyUnit z v us = some (z - (v : Int) * Jobs.unitMillis us) := by
  rcases h with rfl | rfl | rfl | rfl | rfl <;> rfl

/-- A successful unit switch means the unit was one of the five. -/
theorem applyUnit_someE {z : Int} {v : Nat} {us : List Char} {t : Int}
    (h : Jobs.applyUnit z v us = some t) :
    us = "h".data ∨ us = "d".data ∨ us = "w".data ∨ us = "mo".data ∨ us = "y".data := by
  unfold Jobs.applyUnit at h
  by_cases c1 : us = "h".data
  · exact Or.inl c1
  rw [if_neg c1] at h
  by_cases c2 : us = "d".data
  · exact Or.inr (Or.inl c2)
  rw [if_neg c2] at h
  by_cases c3 : us = "w".data
  · exact Or.inr (Or.inr (Or.inl c3))
  rw [if_neg c3] at h
  by_cases c4 : us = "mo".data
  · exact Or.inr (Or.inr (Or.inr (Or.inl c4)))
  rw [if_neg c4] at h
  by_cases c5 : us = "y".data
  · exact Or.inr (Or.inr (Or.inr (Or.inr c5)))
  rw [if_neg c5] at h
  exact absurd h (by simp)

/-! ### Claim theorems: relative-time normalization -/

/-- C6: the relative-time normalizer sends every string whose trimmed,
lowercased form is digits followed by one of the units h, d, w, mo, y to
now minus value times the unit duration (h = 1h, d = 24h, w = 7d,
mo = 30d, y = 365d); sends the phrases just now / now, case-insensitively
and whitespace-tolerantly, to the current instant; sends anything else
(such as banana) to absent; and, being a total function, never raises —
every accepted input falls into one of those recognized shapes. -/
theorem parseRelativeTime_spec (z : Int) :
    (∀ (s : String) (ds us : List Char),
      (Jobs.trimChars s.data).map Char.toLower = ds ++ us →
      ds ≠ [] → (∀ a ∈ ds, a.isDigit = true) →
      us.takeWhile Char.isDigit = [] → us.dropWhile Char.isDigit = us →
      (us = "h".data ∨ us = "d".data ∨ us = "w".data ∨ us = "mo".data ∨ us = "y".data) →
      Jobs.parseRelativeTime z (some s) =
        some (z - (Jobs.digitsToNat ds : Int) * Jobs.unitMillis us)) ∧
    Jobs.parseRelativeTime z (some "2d") = some (z - 172800000) ∧
    Jobs.parseRelativeTime z (some "just now") = some z ∧
    Jobs.parseRelativeTime z (some " JUST NOW ") = some z ∧
    Jobs.parseRelativeTime z (some "Now") = some z ∧
    Jobs.parseRelativeTime z (some "banana") = none ∧
    Jobs.parseRelativeTime z none = none ∧
    (∀ (s : String) (t : Int), Jobs.parseRelativeTime z (some s) = some t →
      (Jobs.trimChars s.data).map Char.toLower = "just now".data ∨
      (Jobs.trimChars s.data).map Char.toLower = "now".data ∨
      ∃ ds us, (Jobs.trimChars s.data).map Char.toLower = ds ++ us ∧ ds ≠ [] ∧
        (∀ a ∈ ds, a.isDigit = true) ∧
        (us = "h".data ∨ us = "d".data ∨ us = "w".data ∨ us = "mo".data ∨ us = "y".data)) := by
  refine ⟨?_, rfl, rfl, rfl, rfl, rfl, rfl, ?_⟩
  · intro s ds us hsplit hds hdig hutw hudw hunit
    have hne : ¬ Jobs.trimChars s.data = [] := by
      intro he
      rw [he] at hsplit
      simp only [List.map_nil] at hsplit
      exact hds (List.append_eq_nil.mp hsplit.symm).1
    simp only [Jobs.parseRelativeTime]
    rw [if_neg hne]
    simp only [hsplit]
    rw [if_neg (digits_append_ne_special ds us hds hdig)]
    rw [matchNumUnit_digits_unit ds us hds hdig hutw hudw
      (by rcases hunit with rfl | rfl | rfl | rfl | rfl <;> decide)
      (by rcases hunit with rfl | rfl | rfl | rfl | rfl <;> decide)]
    exact applyUnit_units z (Jobs.digitsToNat ds) us hunit
  · intro s t h
    simp only [Jobs.parseRelativeTime] at h
    by_cases he : Jobs.trimChars s.data = []
    · rw [if_pos he] at h
      exact absurd h (by simp)
    · rw [if_neg he] at h
      by_cases hj : (Jobs.trimChars s.data).map Char.toLower = "just now".data ∨
          (Jobs.trimChars s.data).map Char.toLower = "now".data
      · rcases hj with hj | hj
        · exact Or.inl hj
        · exact Or.inr (Or.inl hj)
      · rw [if_neg hj] at h
        right; right
        cases hm : Jobs.matchNumUnit ((Jobs.trimChars s.data).map Char.toLower) with
        | none => rw [hm] at h; exact absurd h (by simp)
        | some p =>
          rw [hm] at h
          obtain ⟨v, us⟩ := p
          have hinv := matchNumUnit_someE hm
          exact ⟨((Jobs.trimChars s.data).map Char.toLower).takeWhile Char.isDigit, us,
            hinv.2.2.2.1, hinv.1, hinv.2.2.2.2, applyUnit_someE h⟩

/-- Witness for C6 applying the general digits-unit case at 3w. -/
theorem parseRelativeTime_spec_witness :
    Jobs.parseRelativeTime 0 (some "3w") = some (-1814400000) := by
  have h := (parseRelativeTime_spec 0).1 "3w" ['3'] "w".data (by decide) (by decide)
    (by decide) (by decide) (by decide) (Or.inr (Or.inr (Or.inl rfl)))
  simpa using h

/-- Witness for C10: a three-record batch whose middle record hits a
connection error loses its tail and returns the error. -/
theorem persistBatch_not_atomic_witness :
    Jobs.createManyWithDuplicateHandling 0 Fixtures.connFault Fixtures.emptyDB
        [Fixtures.sampleJob, Fixtures.otherJob, Fixtures.otherJobVariant] =
      ((Jobs.create 0 Fixtures.emptyDB Fixtures.sampleJob).1,
        Except.error "connection reset") ∧
    Jobs.countPair (Jobs.create 0 Fixtures.emptyDB Fixtures.sampleJob).1
      Fixtures.sampleJob.url Fixtures.sampleJob.source =
      Jobs.countPair Fixtures.emptyDB Fixtures.sampleJob.url Fixtures.sampleJob.source + 1 := by
  have h := persistBatch_not_atomic 0 Fixtures.connFault Fixtures.emptyDB
    Fixtures.sampleJob Fixtures.otherJob "connection reset" rfl (by decide) rfl
    (by decide) (by decide) (by decide) [Fixtures.otherJobVariant] []
  exact ⟨h.1, h.2.2.1⟩

/-! ### Session Pool helper lemmas: the Map primitives -/

theorem mapGet_eq_none {pool : List (String × BrowserPool.BInstance)} {key : String} :
    BrowserPool.mapGet pool key = none ↔ ∀ p ∈ pool, p.1 ≠ key := by
  unfold BrowserPool.mapGet
  rw [Option.map_eq_none', List.find?_eq_none]
  constructor
  · intro h p hp
    have := h p hp
    simpa using this
  · intro h p hp
    simpa using h p hp

theorem mapGet_mem {pool : List (String × BrowserPool.BInstance)} {key : String}
    {v : BrowserPool.BInstance} (h : BrowserPool.mapGet pool key = some v) :
    (key, v) ∈ pool := by
  unfold BrowserPool.mapGet at h
  cases hf : pool.find? (fun p => p.1 == key) with
  | none => rw [hf] at h; exact absurd h (by simp)
  | some q =>
    rw [hf] at h
    have hq1 : q.1 = key := by
      have := List.find?_some hf
      simpa using this
    have hq2 : q.2 = v := Option.some.inj h
    have hqm : q ∈ pool := List.mem_of_find?_eq_some hf
    have : q = (key, v) := by
      cases q
      simp only [Prod.mk.injEq]
      exact ⟨hq1, hq2⟩
    rw [← this]
    exact hqm

theorem mapGet_of_mem_nodup {pool : List (String × BrowserPool.BInstance)}
    {k : String} {v : BrowserPool.BInstance}
    (hn : (pool.map Prod.fst).Nodup) (hm : (k, v) ∈ pool) :
    BrowserPool.mapGet pool k = some v := by
  induction pool with
  | nil => exact absurd hm (by simp)
  | cons p rest ih =>
    rw [List.map_cons, List.nodup_cons] at hn
    rcases List.mem_cons.mp hm with rfl | hm2
    · unfold BrowserPool.mapGet
      rw [List.find?_cons_of_pos _ (by simp)]
      rfl
    · have hp1 : p.1 ≠ k := by
        intro he
        exact hn.1 (he ▸ List.mem_map_of_mem Prod.fst hm2)
      unfold BrowserPool.mapGet
      rw [List.find?_cons_of_neg _ (by simpa using hp1)]
      exact ih hn.2 hm2

theorem mapGet_replaceAll (pool : List (String × BrowserPool.BInstance))
    (key : String) (v : BrowserPool.BInstance)
    (h : ∃ q ∈ pool, (q.1 == key) = true) :
    BrowserPool.mapGet
      (pool.map (fun p => if p.1 == key then (key, v) else p)) key = some v := by
  induction pool with
  | nil => simp at h
  | cons p rest ih =>
    by_cases hp : (p.1 == key) = true
    · unfold BrowserPool.mapGet
      rw [List.map_cons, if_pos hp, List.find?_cons_of_pos _ (by simp)]
      rfl
    · unfold BrowserPool.mapGet
      rw [List.map_cons, if_neg hp, List.find?_cons_of_neg _ (by simpa using hp)]
      apply ih
      obtain ⟨q, hq, hq1⟩ := h
      rcases List.mem_cons.mp hq with rfl | hq2
      · exact absurd hq1 hp
      · exact ⟨q, hq2, hq1⟩

theorem mapGet_mapSet_self (pool : List (String × BrowserPool.BInstance))
    (key : String) (v : BrowserPool.BInstance) :
    BrowserPool.mapGet (BrowserPool.mapSet pool key v) key = some v := by
  unfold BrowserPool.mapSet
  by_cases h : pool.any (fun p => p.1 == key) = true
  · rw [if_pos h]
    exact mapGet_replaceAll pool key v (List.any_eq_true.mp h)
  · rw [if_neg h]
    have h1 : pool.find? (fun p => p.1 == key) = none := by
      rw [List.find?_eq_none]
      intro p hp hc
      exact h (List.any_eq_true.mpr ⟨p, hp, hc⟩)
    unfold BrowserPool.mapGet
    rw [List.find?_append, h1, Option.none_or, List.find?_cons_of_pos _ (by simp)]
    rfl

theorem mem_mapSet {pool : List (String × BrowserPool.BInstance)} {key : String}
    {v : BrowserPool.BInstance} {q : String × BrowserPool.BInstance}
    (h : q ∈ BrowserPool.mapSet pool key v) :
    q = (key, v) ∨ (q ∈ pool ∧ q.1 ≠ key) := by
  unfold BrowserPool.mapSet at h
  by_cases hc : pool.any (fun p => p.1 == key) = true
  · rw [if_pos hc] at h
    obtain ⟨p, hp, he⟩ := List.mem_map.mp h
    by_cases hk : (p.1 == key) = true
    · rw [if_pos hk] at he
      exact Or.inl he.symm
    · rw [if_neg hk] at he
      refine Or.inr ⟨he ▸ hp, ?_⟩
      rw [← he]
      simpa using hk
  · rw [if_neg hc] at h
    rcases List.mem_append.mp h with h2 | h2
    · refine Or.inr ⟨h2, ?_⟩
      intro he
      exact hc (List.any_eq_true.mpr ⟨q, h2, by simp [he]⟩)
    · exact Or.inl (by simpa using h2)

theorem mapSet_length_absent {pool : List (String × BrowserPool.BInstance)}
    {key : String} (h : ∀ p ∈ pool, p.1 ≠ key) (v : BrowserPool.BInstance) :
    (BrowserPool.mapSet pool key v).length = pool.length + 1 := by
  unfold BrowserPool.mapSet
  rw [if_neg (fun hc => by
    obtain ⟨p, hp, he⟩ := List.any_eq_true.mp hc
    exact h p hp (by simpa using he))]
  simp

theorem mem_mapDelete {pool : List (String × BrowserPool.BInstance)} {k : String}
    {q : String × BrowserPool.BInstance} (h : q ∈ BrowserPool.mapDelete pool k) :
    q ∈ pool ∧ q.1 ≠ k := by
  unfold BrowserPool.mapDelete at h
  have := List.mem_filter.mp h
  refine ⟨this.1, ?_⟩
  have h2 := this.2
  simpa using h2

theorem mapDelete_length {pool : List (String × BrowserPool.BInstance)}
    {k : String} {v : BrowserPool.BInstance}
    (hn : (pool.map Prod.fst).Nodup) (hm : (k, v) ∈ pool) :
    (BrowserPool.mapDelete pool k).length + 1 = pool.length := by
  induction pool with
  | nil => exact absurd hm (by simp)
  | cons p rest ih =>
    rw [List.map_cons, List.nodup_cons] at hn
    rcases List.mem_cons.mp hm with he | hm2
    · have hk : p.1 = k := by rw [← he]
      unfold BrowserPool.mapDelete
      rw [List.filter_cons, if_neg (by simp [hk])]
      have hrest : rest.filter (fun q => q.1 != k) = rest := by
        apply List.filter_eq_self.mpr
        intro q hq
        have hq1 : q.1 ≠ k := by
          intro heq
          exact hn.1 (by rw [hk, ← heq]; exact List.mem_map_of_mem Prod.fst hq)
        simpa using hq1
      rw [hrest]
      simp
    · have hp1 : p.1 ≠ k := by
        intro he
        exact hn.1 (he ▸ List.mem_map_of_mem Prod.fst hm2)
      have hih := ih hn.2 hm2
      unfold BrowserPool.mapDelete at hih ⊢
      rw [List.filter_cons, if_pos (by simpa using hp1)]
      simp only [List.length_cons]
      omega

/-! ### Session Pool helper lemmas: oldest-idle selection -/

theorem selectFold_cases (pool : List (String × BrowserPool.BInstance)) :
    ∀ (a : Option String) (n : Nat),
      pool.foldl
        (fun acc p =>
          if p.2.isIdle ∧ p.2.lastUsedAt < acc.2 then (some p.1, p.2.lastUsedAt) else acc)
        (a, n) = (a, n) ∨
      ∃ k v, (k, v) ∈ pool ∧ v.isIdle = true ∧
        pool.foldl
          (fun acc p =>
            if p.2.isIdle ∧ p.2.lastUsedAt < acc.2 then (some p.1, p.2.lastUsedAt) else acc)
          (a, n) = (some k, v.lastUsedAt) ∧ v.lastUsedAt < n := by
  induction pool with
  | nil => intro a n; exact Or.inl rfl
  | cons p rest ih =>
    intro a n
    rw [List.foldl_cons]
    by_cases hc : p.2.isIdle ∧ p.2.lastUsedAt < n
    · rw [if_pos hc]
      rcases ih (some p.1) p.2.lastUsedAt with heq | ⟨k, v, hm, hi, he, hlt⟩
      · exact Or.inr ⟨p.1, p.2, List.mem_cons_self p rest, hc.1, heq, hc.2⟩
      · exact Or.inr ⟨k, v, List.mem_cons_of_mem p hm, hi, he, lt_trans hlt hc.2⟩
    · rw [if_neg hc]
      rcases ih a n with heq | ⟨k, v, hm, hi, he, hlt⟩
      · exact Or.inl heq
      · exact Or.inr ⟨k, v, List.mem_cons_of_mem p hm, hi, he, hlt⟩

theorem selectFold_min (pool : List (String × BrowserPool.BInstance)) :
    ∀ (a : Option String) (n : Nat),
      (pool.foldl
        (fun acc p =>
          if p.2.isIdle ∧ p.2.lastUsedAt < acc.2 then (some p.1, p.2.lastUsedAt) else acc)
        (a, n)).2 ≤ n ∧
      ∀ q ∈ pool, q.2.isIdle = true →
        (pool.foldl
          (fun acc p =>
            if p.2.isIdle ∧ p.2.lastUsedAt < acc.2 then (some p.1, p.2.lastUsedAt) else acc)
          (a, n)).2 ≤ q.2.lastUsedAt := by
  induction pool with
  | nil =>
    intro a n
    exact ⟨le_refl n, fun q hq => absurd hq (by simp)⟩
  | cons p rest ih =>
    intro a n
    rw [List.foldl_cons]
    by_cases hc : p.2.isIdle ∧ p.2.lastUsedAt < n
    · rw [if_pos hc]
      have h := ih (some p.1) p.2.lastUsedAt
      refine ⟨le_trans h.1 (le_of_lt hc.2), ?_⟩
      intro q hq hqi
      rcases List.mem_cons.mp hq with rfl | hq2
      · exact h.1
      · exact h.2 q hq2 hqi
    · rw [if_neg hc]
      have h := ih a n
      refine ⟨h.1, ?_⟩
      intro q hq hqi
      rcases List.mem_cons.mp hq with rfl | hq2
      · have hn : ¬ q.2.lastUsedAt < n := fun hlt => hc ⟨hqi, hlt⟩
        exact le_trans h.1 (Nat.le_of_not_lt hn)
      · exact h.2 q hq2 hqi

theorem selectOldestIdle_none {pool : List (String × BrowserPool.BInstance)} {now : Nat}
    (h : ∀ q ∈ pool, q.2.isIdle = false) :
    (BrowserPool.selectOldestIdle pool now).1 = none := by
  unfold BrowserPool.selectOldestIdle
  rcases selectFold_cases pool none now with heq | ⟨k, v, hm, hi, _, _⟩
  · rw [heq]
  · rw [h (k, v) hm] at hi
    exact absurd hi (by simp)

theorem selectOldestIdle_found {pool : List (String × BrowserPool.BInstance)} {now : Nat}
    (hexist : ∃ q ∈ pool, q.2.isIdle = true)
    (htimes : ∀ q ∈ pool, q.2.lastUsedAt < now) :
    ∃ k v, (k, v) ∈ pool ∧ v.isIdle = true ∧
      (BrowserPool.selectOldestIdle pool now).1 = some k ∧
      ∀ q ∈ pool, q.2.isIdle = true → v.lastUsedAt ≤ q.2.lastUsedAt := by
  obtain ⟨q0, hq0, hq0i⟩ := hexist
  have hmin := selectFold_min pool none now
  rcases selectFold_cases pool none now with heq | ⟨k, v, hm, hi, he, _⟩
  · exfalso
    have h1 := hmin.2 q0 hq0 hq0i
    rw [heq] at h1
    exact absurd (lt_of_le_of_lt h1 (htimes q0 hq0)) (lt_irrefl now)
  · refine ⟨k, v, hm, hi, ?_, ?_⟩
    · unfold BrowserPool.selectOldestIdle
      rw [he]
    · intro q hq hqi
      have h1 := hmin.2 q hq hqi
      rw [he] at h1
      exact h1

/-! ### Session Pool helper lemmas: remove and cleanupOldest -/

theorem remove_absent {env : BrowserPool.PoolEnv} {key : String} {st : BrowserPool.PoolState}
    (hg : BrowserPool.mapGet st.pool key = none) :
    BrowserPool.remove env key st = st := by
  unfold BrowserPool.remove
  rw [hg]

theorem remove_ctxFail {env : BrowserPool.PoolEnv} {key : String} {st : BrowserPool.PoolState}
    {v : BrowserPool.BInstance} (hg : BrowserPool.mapGet st.pool key = some v)
    (hc : env.ctxCloseFails v.id = true) :
    BrowserPool.remove env key st = st := by
  unfold BrowserPool.remove
  rw [hg]
  simp [hc]

theorem remove_browserFail {env : BrowserPool.PoolEnv} {key : String}
    {st : BrowserPool.PoolState} {v : BrowserPool.BInstance}
    (hg : BrowserPool.mapGet st.pool key = some v)
    (hc : env.ctxCloseFails v.id = false) (hb : env.browserCloseFails v.id = true) :
    BrowserPool.remove env key st =
      { st with contextClosed := v.id :: st.contextClosed } := by
  unfold BrowserPool.remove
  rw [hg]
  simp [hc, hb]

theorem remove_success {env : BrowserPool.PoolEnv} {key : String}
    {st : BrowserPool.PoolState} {v : BrowserPool.BInstance}
    (hg : BrowserPool.mapGet st.pool key = some v)
    (hc : env.ctxCloseFails v.id = false) (hb : env.browserCloseFails v.id = false) :
    BrowserPool.remove env key st =
      { st with pool := BrowserPool.mapDelete st.pool key,
                contextClosed := v.id :: st.contextClosed,
                browserClosed := v.id :: st.browserClosed } := by
  unfold BrowserPool.remove
  rw [hg]
  simp [hc, hb]

/-! ### Claim theorems: Session Pool capacity and remove -/

/-- C1 counterexample: a pool at its capacity of one whose only session
is in use (no idle entry exists) still creates the new session on an
acquire for a fresh key — the pool ends with two entries, exceeding the
configured maximum instead of failing to create. -/
theorem browserPool_capacity_counterexample :
    Fixtures.busyPool.pool.length = Fixtures.noFailEnv.maxPoolSize ∧
    (∀ q ∈ Fixtures.busyPool.pool, q.2.isIdle = false) ∧
    (BrowserPool.acquire Fixtures.noFailEnv "b" 5 Fixtures.busyPool).1.pool.length =
      Fixtures.noFailEnv.maxPoolSize + 1 :=
  ⟨by decide, by decide, by decide⟩

/-- C1 amended: on an acquire for a key with no reusable idle session
while the pool is at capacity (closes reliable, timestamps in the past,
keys distinct): if some idle entry exists, exactly one idle entry — one
with the globally minimal lastUsedAt among idle entries — is evicted
before the new session is created and the pool stays at its maximum;
but if no idle entry exists the session is created anyway and the pool
exceeds the configured maximum by one.  The eviction branch assumes no
pool key is the empty string: the source's truthiness guard
`if (oldestKey)` skips eviction for an empty-string key, in which case
the pool overflows exactly as in the no-idle branch. -/
theorem browserPool_acquire_at_capacity (env : BrowserPool.PoolEnv) (key : String)
    (now : Nat) (st : BrowserPool.PoolState)
    (c : ∀ n, env.ctxCloseFails n = false ∧ env.browserCloseFails n = false)
    (l : st.pool.length = env.maxPoolSize)
    (p : 0 < env.maxPoolSize)
    (f : BrowserPool.mapGet st.pool key = none)
    (k : (st.pool.map Prod.fst).Nodup)
    (t : ∀ q ∈ st.pool, q.2.lastUsedAt < now)
    (e : ∀ q ∈ st.pool, q.1 ≠ "") :
    ((∃ q ∈ st.pool, q.2.isIdle = true) →
      ∃ ek ev, (ek, ev) ∈ st.pool ∧ ev.isIdle = true ∧
        (∀ q ∈ st.pool, q.2.isIdle = true → ev.lastUsedAt ≤ q.2.lastUsedAt) ∧
        (BrowserPool.acquire env key now st).1.pool =
          BrowserPool.mapSet (BrowserPool.mapDelete st.pool ek) key
            { id := st.nextId, createdAt := now, lastUsedAt := now, isIdle := false } ∧
        (BrowserPool.acquire env key now st).1.pool.length = env.maxPoolSize) ∧
    ((∀ q ∈ st.pool, q.2.isIdle = false) →
      (BrowserPool.acquire env key now st).1.pool.length = env.maxPoolSize + 1) := by
  have hacq : BrowserPool.acquire env key now st = BrowserPool.acquireFresh env key now st := by
    unfold BrowserPool.acquire
    rw [f]
  have hcap : env.maxPoolSize ≤ st.pool.length := le_of_eq l.symm
  have hlen0 : ¬ st.pool.length = 0 := by omega
  constructor
  · intro hex
    obtain ⟨ek, ev, hm, hi, hsel, hminp⟩ := selectOldestIdle_found hex t
    have hget : BrowserPool.mapGet st.pool ek = some ev := mapGet_of_mem_nodup k hm
    have hclean : BrowserPool.cleanupOldest env now st = BrowserPool.remove env ek st := by
      unfold BrowserPool.cleanupOldest
      rw [if_neg hlen0, hsel]
      show (if ek = "" then st else BrowserPool.remove env ek st) = BrowserPool.remove env ek st
      rw [if_neg (e (ek, ev) hm)]
    have hrem := remove_success hget (c ev.id).1 (c ev.id).2
    have hpool : (BrowserPool.acquire env key now st).1.pool =
        BrowserPool.mapSet (BrowserPool.mapDelete st.pool ek) key
          { id := st.nextId, createdAt := now, lastUsedAt := now, isIdle := false } := by
      rw [hacq]
      unfold BrowserPool.acquireFresh
      rw [if_pos hcap, hclean, hrem]
    have habs : ∀ q ∈ BrowserPool.mapDelete st.pool ek, q.1 ≠ key :=
      fun q hq => mapGet_eq_none.mp f q (mem_mapDelete hq).1
    have hdlen : (BrowserPool.mapDelete st.pool ek).length + 1 = st.pool.length :=
      mapDelete_length k hm
    refine ⟨ek, ev, hm, hi, hminp, hpool, ?_⟩
    rw [hpool, mapSet_length_absent habs]
    omega
  · intro hnone
    have hclean : BrowserPool.cleanupOldest env now st = st := by
      unfold BrowserPool.cleanupOldest
      rw [if_neg hlen0, @selectOldestIdle_none st.pool now hnone]
    have hpool : (BrowserPool.acquire env key now st).1.pool =
        BrowserPool.mapSet st.pool key
          { id := st.nextId, createdAt := now, lastUsedAt := now, isIdle := false } := by
      rw [hacq]
      unfold BrowserPool.acquireFresh
      rw [if_pos hcap, hclean]
    rw [hpool, mapSet_length_absent (mapGet_eq_none.mp f)]
    omega

/-- Witness for the amended C1 theorem: the eviction branch on a pool
whose single entry is idle, and the overflow branch on a pool whose
single entry is busy. -/
theorem browserPool_acquire_at_capacity_witness :
    (BrowserPool.acquire Fixtures.noFailEnv "b" 5 Fixtures.idlePool).1.pool.length = 1 ∧
    (BrowserPool.acquire Fixtures.noFailEnv "b" 5 Fixtures.busyPool).1.pool.length = 2 := by
  constructor
  · obtain ⟨ek, ev, _, _, _, _, hlen⟩ :=
      (browserPool_acquire_at_capacity Fixtures.noFailEnv "b" 5 Fixtures.idlePool
        (fun n => ⟨rfl, rfl⟩) rfl (by decide) rfl (by decide) (by decide) (by decide)).1
        ⟨("a", { id := 0, createdAt := 0, lastUsedAt := 0, isIdle := true }),
          by decide, rfl⟩
    exact hlen
  · exact (browserPool_acquire_at_capacity Fixtures.noFailEnv "b" 5 Fixtures.busyPool
      (fun n => ⟨rfl, rfl⟩) rfl (by decide) rfl (by decide) (by decide) (by decide)).2
      (by decide)

/-- C8 counterexample: with a present key whose context.close throws,
remove leaves the pool entry in place (the delete comes after the close
calls inside the try block), so remove does not always delete the
entry of a present key. -/
theorem browserPool_remove_counterexample :
    BrowserPool.mapGet Fixtures.idlePool.pool "a" ≠ none ∧
    BrowserPool.remove Fixtures.ctxFailEnv "a" Fixtures.idlePool = Fixtures.idlePool ∧
    (BrowserPool.remove Fixtures.ctxFailEnv "a" Fixtures.idlePool).pool.length = 1 :=
  ⟨by decide, by decide, by decide⟩

/-- C8 amended: remove is a no-op for an absent key and never propagates
a close failure (it is a total state transformer); for a present key it
closes context then browser and deletes the entry when both closes
succeed, but a context-close failure leaves everything untouched and a
browser-close failure records only the closed context — in both failure
cases the pool entry remains. -/
theorem browserPool_remove_amended (env : BrowserPool.PoolEnv) (key : String)
    (st : BrowserPool.PoolState) :
    (BrowserPool.mapGet st.pool key = none → BrowserPool.remove env key st = st) ∧
    ∀ v, BrowserPool.mapGet st.pool key = some v →
      (env.ctxCloseFails v.id = true → BrowserPool.remove env key st = st) ∧
      (env.ctxCloseFails v.id = false → env.browserCloseFails v.id = true →
        BrowserPool.remove env key st =
          { st with contextClosed := v.id :: st.contextClosed }) ∧
      (env.ctxCloseFails v.id = false → env.browserCloseFails v.id = false →
        BrowserPool.remove env key st =
          { st with pool := BrowserPool.mapDelete st.pool key,
                    contextClosed := v.id :: st.contextClosed,
                    browserClosed := v.id :: st.browserClosed }) := by
  refine ⟨fun hg => remove_absent hg, ?_⟩
  intro v hg
  exact ⟨fun hc => remove_ctxFail hg hc,
    fun hc hb => remove_browserFail hg hc hb,
    fun hc hb => remove_success hg hc hb⟩

/-- Witness for the amended C8 theorem at the all-closes-succeed case. -/
theorem browserPool_remove_amended_witness :
    BrowserPool.remove Fixtures.noFailEnv "a" Fixtures.idlePool =
      { Fixtures.idlePool with
        pool := BrowserPool.mapDelete Fixtures.idlePool.pool "a",
        contextClosed := [0], browserClosed := [0] } :=
  ((browserPool_remove_amended Fixtures.noFailEnv "a" Fixtures.idlePool).2
    { id := 0, createdAt := 0, lastUsedAt := 0, isIdle := true } rfl).2.2 rfl rfl

/-! ### Session Pool helper lemmas: preservation of a displaced id -/

theorem mem_cons_iff_of_ne {x a : Nat} {l : List Nat} (h : x ≠ a) :
    x ∈ a :: l ↔ x ∈ l := by
  simp [List.mem_cons, h]

theorem mem_poolIds {st : BrowserPool.PoolState} {x : Nat} :
    x ∈ BrowserPool.poolIds st ↔ ∃ q ∈ st.pool, q.2.id = x := by
  unfold BrowserPool.poolIds
  simp [List.mem_map]

/-- remove never touches an id that is not reachable from the pool: the
pool stays clear of it, nextId is unchanged, and the closed sets gain
nothing about it. -/
theorem remove_keeps (env : BrowserPool.PoolEnv) (k : String)
    (st : BrowserPool.PoolState) (x : Nat) (h : x ∉ BrowserPool.poolIds st) :
    x ∉ BrowserPool.poolIds (BrowserPool.remove env k st) ∧
    (BrowserPool.remove env k st).nextId = st.nextId ∧
    (x ∈ (BrowserPool.remove env k st).contextClosed ↔ x ∈ st.contextClosed) ∧
    (x ∈ (BrowserPool.remove env k st).browserClosed ↔ x ∈ st.browserClosed) := by
  cases hg : BrowserPool.mapGet st.pool k with
  | none => rw [remove_absent hg]; exact ⟨h, rfl, Iff.rfl, Iff.rfl⟩
  | some v =>
    have hvx : x ≠ v.id := by
      intro he
      exact h (mem_poolIds.mpr ⟨(k, v), mapGet_mem hg, he.symm⟩)
    cases hc : env.ctxCloseFails v.id with
    | true => rw [remove_ctxFail hg hc]; exact ⟨h, rfl, Iff.rfl, Iff.rfl⟩
    | false =>
      cases hb : env.browserCloseFails v.id with
      | true =>
        rw [remove_browserFail hg hc hb]
        exact ⟨h, rfl, mem_cons_iff_of_ne hvx, Iff.rfl⟩
      | false =>
        rw [remove_success hg hc hb]
        refine ⟨?_, rfl, mem_cons_iff_of_ne hvx, mem_cons_iff_of_ne hvx⟩
        intro hx
        obtain ⟨q, hq, hqe⟩ := mem_poolIds.mp hx
        exact h (mem_poolIds.mpr ⟨q, (mem_mapDelete hq).1, hqe⟩)

/-- Folding remove over any list of keys keeps an unreachable id
unreachable and untouched. -/
theorem removeFold_keeps (env : BrowserPool.PoolEnv) (x : Nat) :
    ∀ (keys : List String) (st : BrowserPool.PoolState),
      x ∉ BrowserPool.poolIds st →
      x ∉ BrowserPool.poolIds (keys.foldl (fun s k => BrowserPool.remove env k s) st) ∧
      (keys.foldl (fun s k => BrowserPool.remove env k s) st).nextId = st.nextId ∧
      (x ∈ (keys.foldl (fun s k => BrowserPool.remove env k s) st).contextClosed ↔
        x ∈ st.contextClosed) ∧
      (x ∈ (keys.foldl (fun s k => BrowserPool.remove env k s) st).browserClosed ↔
        x ∈ st.browserClosed) := by
  intro keys
  induction keys with
  | nil => intro st h; exact ⟨h, rfl, Iff.rfl, Iff.rfl⟩
  | cons k rest ih =>
    intro st h
    rw [List.foldl_cons]
    have h1 := remove_keeps env k st x h
    have h2 := ih (BrowserPool.remove env k st) h1.1
    exact ⟨h2.1, h2.2.1.trans h1.2.1, h2.2.2.1.trans h1.2.2.1, h2.2.2.2.trans h1.2.2.2⟩

/-- cleanupOldest keeps an unreachable id unreachable and untouched. -/
theorem cleanupOldest_keeps (env : BrowserPool.PoolEnv) (now : Nat)
    (st : BrowserPool.PoolState) (x : Nat) (h : x ∉ BrowserPool.poolIds st) :
    x ∉ BrowserPool.poolIds (BrowserPool.cleanupOldest env now st) ∧
    (BrowserPool.cleanupOldest env now st).nextId = st.nextId ∧
    (x ∈ (BrowserPool.cleanupOldest env now st).contextClosed ↔ x ∈ st.contextClosed) ∧
    (x ∈ (BrowserPool.cleanupOldest env now st).browserClosed ↔ x ∈ st.browserClosed) := by
  unfold BrowserPool.cleanupOldest
  by_cases hz : st.pool.length = 0
  · rw [if_pos hz]; exact ⟨h, rfl, Iff.rfl, Iff.rfl⟩
  · rw [if_neg hz]
    cases (BrowserPool.selectOldestIdle st.pool now).1 with
    | none => exact ⟨h, rfl, Iff.rfl, Iff.rfl⟩
    | some ek =>
      have hred : (match some ek with
          | some oldestKey =>
            if oldestKey = "" then st else BrowserPool.remove env oldestKey st
          | none => st) = if ek = "" then st else BrowserPool.remove env ek st := rfl
      rw [hred]
      by_cases he : ek = ""
      · rw [if_pos he]
        exact ⟨h, rfl, Iff.rfl, Iff.rfl⟩
      · rw [if_neg he]
        exact remove_keeps env ek st x h

/-- Setting a freshly allocated instance under some key cannot make an
already-allocated foreign id reachable. -/
theorem setFresh_keeps (key : String) (now : Nat) (u : BrowserPool.PoolState) (x : Nat)
    (h1 : x ∉ BrowserPool.poolIds u) (h2 : x < u.nextId) :
    x ∉ BrowserPool.poolIds
      { u with
        pool := BrowserPool.mapSet u.pool key
          { id := u.nextId, createdAt := now, lastUsedAt := now, isIdle := false },
        nextId := u.nextId + 1 } := by
  intro hx
  obtain ⟨q, hq, hqe⟩ := mem_poolIds.mp hx
  rcases mem_mapSet hq with he | ⟨hmem, _⟩
  · rw [he] at hqe
    simp at hqe
    omega
  · exact h1 (mem_poolIds.mpr ⟨q, hmem, hqe⟩)

/-- acquireFresh keeps an allocated-but-unreachable id unreachable and
untouched; nextId only grows. -/
theorem acquireFresh_keeps (env : BrowserPool.PoolEnv) (key : String) (now : Nat)
    (st : BrowserPool.PoolState) (x : Nat)
    (h1 : x ∉ BrowserPool.poolIds st) (h2 : x < st.nextId) :
    x ∉ BrowserPool.poolIds (BrowserPool.acquireFresh env key now st).1 ∧
    st.nextId ≤ (BrowserPool.acquireFresh env key now st).1.nextId ∧
    (x ∈ (BrowserPool.acquireFresh env key now st).1.contextClosed ↔ x ∈ st.contextClosed) ∧
    (x ∈ (BrowserPool.acquireFresh env key now st).1.browserClosed ↔ x ∈ st.browserClosed) := by
  by_cases hcap : env.maxPoolSize ≤ st.pool.length
  · have hstc := cleanupOldest_keeps env now st x h1
    have hu := hstc.2.1
    have hfr : (BrowserPool.acquireFresh env key now st).1 =
        { BrowserPool.cleanupOldest env now st with
          pool := BrowserPool.mapSet (BrowserPool.cleanupOldest env now st).pool key
            { id := (BrowserPool.cleanupOldest env now st).nextId, createdAt := now,
              lastUsedAt := now, isIdle := false },
          nextId := (BrowserPool.cleanupOldest env now st).nextId + 1 } := by
      unfold BrowserPool.acquireFresh
      rw [if_pos hcap]
    rw [hfr]
    refine ⟨?_, ?_, hstc.2.2.1, hstc.2.2.2⟩
    · exact setFresh_keeps key now _ x hstc.1 (by omega)
    · show st.nextId ≤ (BrowserPool.cleanupOldest env now st).nextId + 1
      omega
  · have hfr : (BrowserPool.acquireFresh env key now st).1 =
        { st with
          pool := BrowserPool.mapSet st.pool key
            { id := st.nextId, createdAt := now, lastUsedAt := now, isIdle := false },
          nextId := st.nextId + 1 } := by
      unfold BrowserPool.acquireFresh
      rw [if_neg hcap]
    rw [hfr]
    refine ⟨setFresh_keeps key now st x h1 h2, ?_, Iff.rfl, Iff.rfl⟩
    show st.nextId ≤ st.nextId + 1
    omega

/-- One pool operation keeps an allocated-but-unreachable id
unreachable; nextId never decreases; the closed sets never gain it. -/
theorem step_keeps (env : BrowserPool.PoolEnv) (op : BrowserPool.PoolOp)
    (st : BrowserPool.PoolState) (x : Nat)
    (h1 : x ∉ BrowserPool.poolIds st) (h2 : x < st.nextId) :
    x ∉ BrowserPool.poolIds (BrowserPool.step env op st) ∧
    st.nextId ≤ (BrowserPool.step env op st).nextId ∧
    (x ∈ (BrowserPool.step env op st).contextClosed ↔ x ∈ st.contextClosed) ∧
    (x ∈ (BrowserPool.step env op st).browserClosed ↔ x ∈ st.browserClosed) := by
  cases op with
  | acquireOp key now =>
    have hgoal : BrowserPool.step env (BrowserPool.PoolOp.acquireOp key now) st =
        (BrowserPool.acquire env key now st).1 := rfl
    rw [hgoal]
    cases hg : BrowserPool.mapGet st.pool key with
    | some ex =>
      have hkeep : x ∉ BrowserPool.poolIds
          { st with
            pool := BrowserPool.mapSet st.pool key
              { ex with isIdle := false, lastUsedAt := now } } := by
        intro hx
        obtain ⟨q, hq, hqe⟩ := mem_poolIds.mp hx
        rcases mem_mapSet hq with he | ⟨hmem, _⟩
        · rw [he] at hqe
          simp only at hqe
          exact h1 (mem_poolIds.mpr ⟨(key, ex), mapGet_mem hg, hqe⟩)
        · exact h1 (mem_poolIds.mpr ⟨q, hmem, hqe⟩)
      cases hi : ex.isIdle with
      | true =>
        have ha : (BrowserPool.acquire env key now st).1 =
            { st with
              pool := BrowserPool.mapSet st.pool key
                { ex with isIdle := false, lastUsedAt := now } } := by
          unfold BrowserPool.acquire
          rw [hg]
          simp [hi]
        rw [ha]
        exact ⟨hkeep, le_refl _, Iff.rfl, Iff.rfl⟩
      | false =>
        have ha : (BrowserPool.acquire env key now st).1 =
            (BrowserPool.acquireFresh env key now st).1 := by
          unfold BrowserPool.acquire
          rw [hg]
          simp [hi]
        rw [ha]
        exact acquireFresh_keeps env key now st x h1 h2
    | none =>
      have ha : (BrowserPool.acquire env key now st).1 =
          (BrowserPool.acquireFresh env key now st).1 := by
        unfold BrowserPool.acquire
        rw [hg]
      rw [ha]
      exact acquireFresh_keeps env key now st x h1 h2
  | releaseOp key now =>
    have hgoal : BrowserPool.step env (BrowserPool.PoolOp.releaseOp key now) st =
        BrowserPool.release key now st := rfl
    rw [hgoal]
    cases hg : BrowserPool.mapGet st.pool key with
    | none =>
      have hr : BrowserPool.release key now st = st := by
        unfold BrowserPool.release
        rw [hg]
      rw [hr]
      exact ⟨h1, le_refl _, Iff.rfl, Iff.rfl⟩
    | some v =>
      have hr : BrowserPool.release key now st =
          { st with
            pool := BrowserPool.mapSet st.pool key
              { v with isIdle := true, lastUsedAt := now } } := by
        unfold BrowserPool.release
        rw [hg]
      rw [hr]
      refine ⟨?_, le_refl _, Iff.rfl, Iff.rfl⟩
      intro hx
      obtain ⟨q, hq, hqe⟩ := mem_poolIds.mp hx
      rcases mem_mapSet hq with he | ⟨hmem, _⟩
      · rw [he] at hqe
        simp only at hqe
        exact h1 (mem_poolIds.mpr ⟨(key, v), mapGet_mem hg, hqe⟩)
      · exact h1 (mem_poolIds.mpr ⟨q, hmem, hqe⟩)
  | removeOp key =>
    have h := remove_keeps env key st x h1
    exact ⟨h.1, le_of_eq h.2.1.symm, h.2.2.1, h.2.2.2⟩
  | cleanupOldestOp now =>
    have h := cleanupOldest_keeps env now st x h1
    exact ⟨h.1, le_of_eq h.2.1.symm, h.2.2.1, h.2.2.2⟩
  | cleanupIdleOp idleTimeout now =>
    have h := removeFold_keeps env x
      ((st.pool.filter (fun p => p.2.isIdle && decide (idleTimeout < now - p.2.lastUsedAt))).map
        (fun p => p.1)) st h1
    exact ⟨h.1, le_of_eq h.2.1.symm, h.2.2.1, h.2.2.2⟩
  | clearOp =>
    have h := removeFold_keeps env x (st.pool.map (fun p => p.1)) st h1
    exact ⟨h.1, le_of_eq h.2.1.symm, h.2.2.1, h.2.2.2⟩

/-- Any sequence of pool operations keeps an allocated-but-unreachable
id out of the pool and out of the closed sets. -/
theorem run_keeps (env : BrowserPool.PoolEnv) (x : Nat) :
    ∀ (ops : List BrowserPool.PoolOp) (st : BrowserPool.PoolState),
      x ∉ BrowserPool.poolIds st → x < st.nextId →
      x ∉ BrowserPool.poolIds (BrowserPool.run env ops st) ∧
      (x ∈ (BrowserPool.run env ops st).contextClosed ↔ x ∈ st.contextClosed) ∧
      (x ∈ (BrowserPool.run env ops st).browserClosed ↔ x ∈ st.browserClosed) := by
  intro ops
  induction ops with
  | nil => intro st h1 h2; exact ⟨h1, Iff.rfl, Iff.rfl⟩
  | cons op rest ih =>
    intro st h1 h2
    have hs := step_keeps env op st x h1 h2
    have hr := ih (BrowserPool.step env op st) hs.1 (lt_of_lt_of_le h2 hs.2.1)
    exact ⟨hr.1, hr.2.1.trans hs.2.2.1, hr.2.2.trans hs.2.2.2⟩

/-- cleanupOldest only shrinks the pool, never touches nextId, and only
ever closes the id of an idle entry. -/
theorem cleanupOldest_parts (env : BrowserPool.PoolEnv) (now : Nat)
    (st : BrowserPool.PoolState) (hk : (st.pool.map Prod.fst).Nodup) (z : Nat)
    (hz : ∀ q ∈ st.pool, q.2.isIdle = true → q.2.id ≠ z) :
    (∀ q ∈ (BrowserPool.cleanupOldest env now st).pool, q ∈ st.pool) ∧
    (BrowserPool.cleanupOldest env now st).nextId = st.nextId ∧
    (z ∈ (BrowserPool.cleanupOldest env now st).contextClosed ↔ z ∈ st.contextClosed) ∧
    (z ∈ (BrowserPool.cleanupOldest env now st).browserClosed ↔ z ∈ st.browserClosed) := by
  unfold BrowserPool.cleanupOldest
  by_cases hlen : st.pool.length = 0
  · rw [if_pos hlen]
    exact ⟨fun q hq => hq, rfl, Iff.rfl, Iff.rfl⟩
  · rw [if_neg hlen]
    rcases selectFold_cases st.pool none now with heq | ⟨ek, ev, hm, hi, he, _⟩
    · have hsel : (BrowserPool.selectOldestIdle st.pool now).1 = none := by
        unfold BrowserPool.selectOldestIdle
        rw [heq]
      rw [hsel]
      exact ⟨fun q hq => hq, rfl, Iff.rfl, Iff.rfl⟩
    · have hsel : (BrowserPool.selectOldestIdle st.pool now).1 = some ek := by
        unfold BrowserPool.selectOldestIdle
        rw [he]
      rw [hsel]
      have hred : (match some ek with
          | some oldestKey =>
            if oldestKey = "" then st else BrowserPool.remove env oldestKey st
          | none => st) = if ek = "" then st else BrowserPool.remove env ek st := rfl
      rw [hred]
      by_cases hke : ek = ""
      case pos =>
        rw [if_pos hke]
        exact ⟨fun q hq => hq, rfl, Iff.rfl, Iff.rfl⟩
      case neg =>
      rw [if_neg hke]
      have hget : BrowserPool.mapGet st.pool ek = some ev := mapGet_of_mem_nodup hk hm
      have hez : ev.id ≠ z := hz (ek, ev) hm hi
      cases hc : env.ctxCloseFails ev.id with
      | true =>
        rw [remove_ctxFail hget hc]
        exact ⟨fun q hq => hq, rfl, Iff.rfl, Iff.rfl⟩
      | false =>
        cases hb : env.browserCloseFails ev.id with
        | true =>
          rw [remove_browserFail hget hc hb]
          exact ⟨fun q hq => hq, rfl, mem_cons_iff_of_ne (Ne.symm hez), Iff.rfl⟩
        | false =>
          rw [remove_success hget hc hb]
          exact ⟨fun q hq => (mem_mapDelete hq).1, rfl,
            mem_cons_iff_of_ne (Ne.symm hez), mem_cons_iff_of_ne (Ne.symm hez)⟩

/-! ### Claim theorem: the displaced in-use session -/

/-- C9: acquiring a key whose pooled session is in use creates an
entirely new session (fresh id) and overwrites the pool entry, and no
pool operation — then or in any later operation sequence — ever closes
the displaced session's context or browser: the old session is
unreachable from the pool while still open. -/
theorem browserPool_displaced_session (env : BrowserPool.PoolEnv) (key : String)
    (now : Nat) (st : BrowserPool.PoolState) (v : BrowserPool.BInstance)
    (g : BrowserPool.mapGet st.pool key = some v)
    (b : v.isIdle = false)
    (i : ∀ q ∈ st.pool, q.2.id < st.nextId)
    (d : (st.pool.map (fun q => q.2.id)).Nodup)
    (k : (st.pool.map Prod.fst).Nodup)
    (x : v.id ∉ st.contextClosed)
    (y : v.id ∉ st.browserClosed) :
    ∀ ops : List BrowserPool.PoolOp,
      (∃ w, BrowserPool.mapGet (BrowserPool.acquire env key now st).1.pool key = some w ∧
        w.id = st.nextId ∧ v.id ≠ st.nextId) ∧
      v.id ∉ BrowserPool.poolIds
        (BrowserPool.run env ops (BrowserPool.acquire env key now st).1) ∧
      v.id ∉ (BrowserPool.run env ops (BrowserPool.acquire env key now st).1).contextClosed ∧
      v.id ∉ (BrowserPool.run env ops (BrowserPool.acquire env key now st).1).browserClosed := by
  have hvm : (key, v) ∈ st.pool := mapGet_mem g
  have hvlt : v.id < st.nextId := i (key, v) hvm
  have hvne : v.id ≠ st.nextId := Nat.ne_of_lt hvlt
  have hidne : ∀ q ∈ st.pool, q.2.isIdle = true → q.2.id ≠ v.id := by
    intro q hq hqi he
    have hqv : q = (key, v) := List.inj_on_of_nodup_map d hq hvm he
    rw [hqv] at hqi
    have hvi : v.isIdle = true := hqi
    rw [b] at hvi
    exact Bool.false_ne_true hvi
  have hacq : BrowserPool.acquire env key now st = BrowserPool.acquireFresh env key now st := by
    unfold BrowserPool.acquire
    rw [g]
    simp [b]
  have hstc : ∃ u : BrowserPool.PoolState,
      (BrowserPool.acquireFresh env key now st).1 =
        { u with
          pool := BrowserPool.mapSet u.pool key
            { id := u.nextId, createdAt := now, lastUsedAt := now, isIdle := false },
          nextId := u.nextId + 1 } ∧
      u.nextId = st.nextId ∧
      (∀ q ∈ u.pool, q ∈ st.pool) ∧
      (v.id ∈ u.contextClosed ↔ v.id ∈ st.contextClosed) ∧
      (v.id ∈ u.browserClosed ↔ v.id ∈ st.browserClosed) := by
    by_cases hcap : env.maxPoolSize ≤ st.pool.length
    · have hparts := cleanupOldest_parts env now st k v.id hidne
      refine ⟨BrowserPool.cleanupOldest env now st, ?_, hparts.2.1, hparts.1,
        hparts.2.2.1, hparts.2.2.2⟩
      unfold BrowserPool.acquireFresh
      rw [if_pos hcap]
    · refine ⟨st, ?_, rfl, fun q hq => hq, Iff.rfl, Iff.rfl⟩
      unfold BrowserPool.acquireFresh
      rw [if_neg hcap]
  obtain ⟨u, hfr, hun, hsub, hcc, hbc⟩ := hstc
  have hst1 : (BrowserPool.acquire env key now st).1 =
      { u with
        pool := BrowserPool.mapSet u.pool key
          { id := u.nextId, createdAt := now, lastUsedAt := now, isIdle := false },
        nextId := u.nextId + 1 } := by
    rw [hacq]
    exact hfr
  have hA : v.id ∉ BrowserPool.poolIds (BrowserPool.acquire env key now st).1 := by
    rw [hst1]
    intro hx
    obtain ⟨q, hq, hqe⟩ := mem_poolIds.mp hx
    rcases mem_mapSet hq with he | ⟨hmem, hne⟩
    · rw [he] at hqe
      simp only at hqe
      rw [hun] at hqe
      exact hvne hqe.symm
    · have hqst : q ∈ st.pool := hsub q hmem
      have hqv : q = (key, v) := List.inj_on_of_nodup_map d hqst hvm hqe
      rw [hqv] at hne
      exact hne rfl
  have hB : v.id ∉ (BrowserPool.acquire env key now st).1.contextClosed := by
    rw [hst1]
    exact fun hmem => x (hcc.mp hmem)
  have hC : v.id ∉ (BrowserPool.acquire env key now st).1.browserClosed := by
    rw [hst1]
    exact fun hmem => y (hbc.mp hmem)
  have hD : v.id < (BrowserPool.acquire env key now st).1.nextId := by
    rw [hst1]
    show v.id < u.nextId + 1
    omega
  intro ops
  have hrun := run_keeps env v.id ops (BrowserPool.acquire env key now st).1 hA hD
  refine ⟨?_, hrun.1, fun hmem => hB (hrun.2.1.mp hmem), fun hmem => hC (hrun.2.2.mp hmem)⟩
  refine ⟨{ id := u.nextId, createdAt := now, lastUsedAt := now, isIdle := false }, ?_, hun, hvne⟩
  rw [hst1]
  exact mapGet_mapSet_self u.pool key _

/-- Witness for C9: acquiring the busy key a replaces it, and a
subsequent remove of key a plus clear never close the displaced id 0. -/
theorem browserPool_displaced_session_witness :
    0 ∉ BrowserPool.poolIds
      (BrowserPool.run Fixtures.noFailEnv
        [BrowserPool.PoolOp.removeOp "a", BrowserPool.PoolOp.clearOp]
        (BrowserPool.acquire Fixtures.noFailEnv "a" 5 Fixtures.busyPool).1) ∧
    0 ∉ (BrowserPool.run Fixtures.noFailEnv
        [BrowserPool.PoolOp.removeOp "a", BrowserPool.PoolOp.clearOp]
        (BrowserPool.acquire Fixtures.noFailEnv "a" 5 Fixtures.busyPool).1).contextClosed := by
  have h := browserPool_displaced_session Fixtures.noFailEnv "a" 5 Fixtures.busyPool
    { id := 0, createdAt := 0, lastUsedAt := 0, isIdle := false } rfl rfl (by decide)
    (by decide) (by decide) (by decide) (by decide)
    [BrowserPool.PoolOp.removeOp "a", BrowserPool.PoolOp.clearOp]
  exact ⟨h.2.1, h.2.2.1⟩

end Mantis
